/-
Verification of the auto-mograph-bot core scheduling and retry code.

Shallow embedding of:
  src/runner/scheduler.py  (GenerationScheduler: concurrency decision,
                            ledger load, dedup, per-job retry, batch run)
  src/sd/txt2img.py        (classify_sd_error, with_retry)
  src/video/ffmpeg_utils.py (classify_ffmpeg)
  src/runner/locks.py      (FileLock polling acquisition and scoped release)

Machine integers are modelled as Nat; Python floats that only ever hold
exactly representable products (the retry back-off sequence) are modelled
as Rat; Python exceptions become Except values; Python set becomes
Finset String.
-/
import Mathlib

namespace AutoEdit

/-! ## Python string primitives used by the classifiers

`pyIn needle hay` is Python's `needle in hay` substring test. -/

def charsHavePre : List Char → List Char → Bool
  | [], _ => true
  | _ :: _, [] => false
  | a :: as, b :: bs => a == b && charsHavePre as bs

def charsContain (needle : List Char) : List Char → Bool
  | [] => charsHavePre needle []
  | b :: bs => charsHavePre needle (b :: bs) || charsContain needle bs

def pyIn (needle hay : String) : Bool :=
  charsContain needle.toList hay.toList

/-- Python's `str.lower()` as used by the classifiers (ASCII case
mapping, `Char.toLower` on every character). -/
def pyLower (s : String) : String :=
  ⟨s.data.map Char.toLower⟩

/-! ## classify_sd_error  (src/sd/txt2img.py lines 68-90)

The httpx exception hierarchy is embedded as an inductive: the
`isinstance` tests of the source become constructor tests.  In httpx,
`TimeoutException` and `ConnectError` are subclasses of `RequestError`,
while `HTTPStatusError` is not; the embedding's `classify_sd_error`
replays the source's checks in order on that hierarchy. -/

inductive SdError where
  | timeoutExc (msg : String)
  | connectExc (msg : String)
  | httpStatusExc (status : Nat) (msg : String)
  | requestExc (msg : String)
  | otherExc (msg : String)
  deriving DecidableEq

def SdError.msg : SdError → String
  | .timeoutExc m => m
  | .connectExc m => m
  | .httpStatusExc _ m => m
  | .requestExc m => m
  | .otherExc m => m

def SdError.isTimeoutException : SdError → Bool
  | .timeoutExc _ => true
  | _ => false

def SdError.isConnectError : SdError → Bool
  | .connectExc _ => true
  | _ => false

def SdError.isRequestError : SdError → Bool
  | .timeoutExc _ => true
  | .connectExc _ => true
  | .requestExc _ => true
  | _ => false

/-- The tail of classify_sd_error's check chain (the checks after the
HTTPStatusError block of the source): RequestError, then the message-based
out-of-memory / unauthorized checks, then the unknown fallback. -/
def classifySdTail (err : SdError) (message : String) : String × String :=
  if err.isRequestError then
    ("conn_error", "检查网络代理、防火墙或服务监听端口")
  else if pyIn "out of memory" message || (pyIn "cuda" message && pyIn "memory" message) then
    ("oom", "降低生成分辨率或减少批量大小")
  else if pyIn "unauthorized" message || pyIn "401" message then
    ("auth_error", "确认 WebUI Token 或鉴权配置是否有效")
  else ("unknown", "查看 pipeline.jsonl 中的 traceback 以进一步排查")

def classify_sd_error (err : SdError) : String × String :=
  let message := pyLower err.msg
  if err.isTimeoutException || pyIn "timeout" message then
    ("timeout", "检查网络连通性或适当提高超时时间")
  else if err.isConnectError || pyIn "connection refused" message then
    ("conn_error", "确认 SD WebUI 服务已启动且地址配置正确")
  else
    match err with
    | SdError.httpStatusExc status _ =>
      if status = 429 then ("rate_limited", "降低并发或延长请求间隔")
      else if 500 ≤ status ∧ status < 600 then
        ("http_5xx", "检查 WebUI 服务端日志或重启服务")
      else if 400 ≤ status ∧ status < 500 then
        ("bad_request", "校验提示词与参数是否符合接口要求")
      else classifySdTail err message
    | _ => classifySdTail err message

/-! ## classify_ffmpeg  (src/video/ffmpeg_utils.py lines 71-93) -/

def classify_ffmpeg (stderr : String) (code : Int) : String × String :=
  let message := pyLower stderr
  if code == 127 || pyIn "command not found" message then
    ("no_ffmpeg", "确认已安装 FFmpeg 并在 PATH 中可用")
  else if pyIn "no such file or directory" message || pyIn "unable to open" message then
    ("file_not_found", "检查输入输出路径是否正确存在")
  else if pyIn "permission denied" message then
    ("permission", "检查输出目录及文件权限")
  else if pyIn "no space left" message || pyIn "disk full" message then
    ("disk_full", "清理磁盘空间或调整输出目录")
  else if pyIn "codec not found" message || pyIn "unknown encoder" message then
    ("codec_missing", "安装所需编解码器或修改编码参数")
  else if pyIn "device or resource busy" message || pyIn "resource temporarily unavailable" message then
    ("resource_busy", "确认输出文件未被占用或稍后重试")
  else if pyIn "broken pipe" message || pyIn "ePIPE" message then
    ("broken_pipe", "检查上游数据流或管道写入是否中断")
  else if pyIn "connection timed out" message || pyIn "timed out" message then
    ("timeout", "检查网络/IO 条件或调高超时时间")
  else if pyIn "input/output error" message then
    ("io_error", "检查磁盘健康状态或更换输出位置")
  else ("unknown", "查看 stderr 详情或命令参数以进一步排查")

/-! ## Concurrency decision  (src/runner/scheduler.py lines 93-128)

The source picks an effective concurrency and logs one of four distinct
messages; the `Reason` inductive names the four logging branches. -/

inductive Reason where
  | ok
  | forcedSerialLowMemory
  | forcedSerialNoAccelerator
  | cappedByCpu
  deriving DecidableEq

/-- Embedding of scheduler.run lines 93-128: `requested = max(1, cfg.concurrency)`,
`cpu_cores = max(1, get_cpu_cores())`, then the hard-serial branch
(`total_memory <= 0 or free_memory < min_free_vram_mb * requested`) with the
message choice `total_memory > 0 ? low-memory : cpu-mode`, else
`min(requested, cpu_cores)` with the capped notice iff it is below requested. -/
def schedulerDecide (hardSerial : Bool) (minFreeVramMb : Nat) (concurrencyCfg : Nat)
    (freeMemory totalMemory : Nat) (cpuCoresRaw : Nat) : Nat × Reason :=
  let requested := max 1 concurrencyCfg
  let cpuCores := max 1 cpuCoresRaw
  if hardSerial ∧ (totalMemory ≤ 0 ∨ freeMemory < minFreeVramMb * requested) then
    (1, if 0 < totalMemory then Reason.forcedSerialLowMemory else Reason.forcedSerialNoAccelerator)
  else
    let concurrency := min requested cpuCores
    (concurrency, if concurrency < requested then Reason.cappedByCpu else Reason.ok)

/-- The spec's concurrency-decision algorithm (spec.md section 4.6, steps 3-4),
written from the spec's words for the refinement comparison in C1. -/
def specDecide (hardSerial : Bool) (minFreeVramMb : Nat) (requestedConcurrency : Nat)
    (freeMemoryMb totalMemoryMb : Nat) (cpuCores : Nat) : Nat × Reason :=
  if hardSerial ∧ (totalMemoryMb = 0 ∨ freeMemoryMb < minFreeVramMb * requestedConcurrency) then
    (1, if totalMemoryMb = 0 then Reason.forcedSerialNoAccelerator else Reason.forcedSerialLowMemory)
  else
    (min requestedConcurrency cpuCores,
     if cpuCores < requestedConcurrency then Reason.cappedByCpu else Reason.ok)

/-! ## with_retry  (src/sd/txt2img.py lines 93-154)

The wrapped operation is modelled as `op : Nat → Except E A`, giving the
outcome of each attempt by its 1-based attempt number.  With
`jitter_ms = 0` the slept delays are the exact float products
`1, backoff, backoff^2, ...`, modelled in `Rat`.  The trace returned is
(result, number of the last attempt made, list of delays slept, in order). -/

/-- Python's `max(a, b)` on floats (used by the source's
`max(1.0, float(cfg.get("backoff_factor", 1.0)))`): the second argument
when it is strictly greater, else the first. -/
def pyMaxRat (a b : Rat) : Rat := if Rat.blt a b then b else a

structure RetryTrace (E A : Type) where
  result : Except E A
  lastAttempt : Nat
  delays : List Rat
  deriving Repr

/-- The attempt loop of with_retry from a given attempt number and current
delay: try `op attempt`; on success stop; on failure re-raise the error
when no attempts remain (the source's `if attempt >= attempts: raise`),
else sleep `delay` (jitter 0), multiply the delay by `backoff` and move to
the next attempt.  `remaining` is `attempts - attempt`, the number of
attempts still allowed after the current one, so the loop is structural. -/
def withRetryGo (op : Nat → Except E A) (backoff : Rat) (attempt : Nat) (delay : Rat) :
    Nat → RetryTrace E A
  | 0 =>
    match op attempt with
    | Except.ok a => ⟨Except.ok a, attempt, []⟩
    | Except.error e => ⟨Except.error e, attempt, []⟩
  | remaining + 1 =>
    match op attempt with
    | Except.ok a => ⟨Except.ok a, attempt, []⟩
    | Except.error _ =>
      let rest := withRetryGo op backoff (attempt + 1) (delay * backoff) remaining
      ⟨rest.result, rest.lastAttempt, delay :: rest.delays⟩

/-- with_retry with `jitter_ms = 0`: normalises `attempts = max 1 maxAttempts`
and `backoff = max 1 backoffFactor` exactly as the source's
`max(1, int(...))` / `max(1.0, float(...))`, then runs the attempt loop
starting at attempt 1 with delay 1.0 and `attempts - 1` further attempts
allowed. -/
def with_retry (op : Nat → Except E A) (maxAttempts : Nat) (backoffFactor : Rat) :
    RetryTrace E A :=
  withRetryGo op (pyMaxRat 1 backoffFactor) 1 1 (max 1 maxAttempts - 1)

/-! ## Ledger and scheduler state  (src/runner/scheduler.py)

One physical line of the index file is either a JSON record — carrying the
value of its "hash" field when present — or a line that fails
`json.loads`.  The records the scheduler itself appends
(`_append_index`) always carry a "hash" field equal to the job's
`file_hash` (possibly the empty string). -/

inductive LedgerLine where
  | record (hash : Option String)
  | corrupt (raw : String)
  deriving DecidableEq

/-- One iteration of the `_load_existing_hashes` loop: parseable records
with a "hash" field add that hash to the set, records without the field and
unparseable lines are skipped. -/
def loadStep (s : Finset String) : LedgerLine → Finset String
  | LedgerLine.record (some h) => insert h s
  | LedgerLine.record none => s
  | LedgerLine.corrupt _ => s

/-- _load_existing_hashes (lines 32-44): fold the per-line rule over the
file, starting from the empty set.  Total — a corrupt line is skipped,
never an error. -/
def loadExistingHashes (lines : List LedgerLine) : Finset String :=
  lines.foldl loadStep ∅

/-- The only JobResult fields the scheduler inspects: `file_hash` ("" means
the artifact could not be hashed) and an identifying tag standing for the
remaining payload (prompt, paths, upload result, ...). -/
structure JobResult where
  file_hash : String
  tag : Nat
  deriving DecidableEq

/-- Scheduler state touched by `_run_single`: the in-memory dedup set
`completed_hashes` and the on-disk ledger (as its parsed lines). -/
structure SchedState where
  completed : Finset String
  ledger : List LedgerLine
  deriving DecidableEq

/-- Scheduler construction (lines 27-28): `completed_hashes` is rebuilt
from the existing index file. -/
def initSchedState (lines : List LedgerLine) : SchedState :=
  ⟨loadExistingHashes lines, lines⟩

/-- _append_index (lines 46-65): appends one newline-terminated record whose
"hash" field is the result's file_hash. -/
def appendIndex (st : SchedState) (r : JobResult) : SchedState :=
  ⟨st.completed, st.ledger ++ [LedgerLine.record (some r.file_hash)]⟩

/-- _run_single (lines 67-85).  The attempt's outcome is `none` when
`job.run()` (or lock acquisition) raised — the exception is caught, logged
and turned into `None` after the cooldown sleep.  On a result: a non-empty
hash already in `completed_hashes` skips the append (Python's
`if result.file_hash and result.file_hash in self.completed_hashes`);
otherwise a non-empty hash is added to the set and the record appended
(an empty hash is appended without entering the set). -/
def runSingle (st : SchedState) (outcome : Option JobResult) :
    Option JobResult × SchedState :=
  match outcome with
  | none => (none, st)
  | some r =>
    if r.file_hash ≠ "" ∧ r.file_hash ∈ st.completed then (some r, st)
    else
      let st1 : SchedState :=
        ⟨if r.file_hash ≠ "" then insert r.file_hash st.completed else st.completed,
         st.ledger⟩
      (some r, appendIndex st1 r)

/-- _run_with_retry (lines 155-160) from a given attempt number: the
source's `for attempt in range(1, max_retries + 2)` loop, returning the
first non-None outcome, else `none` once the budget is exhausted.
`outcomes k` is what attempt `k` of this job produces; `budget` is the
number of loop iterations left (`max_retries + 2 - attempt`). -/
def runWithRetryGo (outcomes : Nat → Option JobResult) (st : SchedState)
    (attempt : Nat) : Nat → Option JobResult × SchedState
  | 0 => (none, st)
  | budget + 1 =>
    match runSingle st (outcomes attempt) with
    | (some r, st1) => (some r, st1)
    | (none, st1) => runWithRetryGo outcomes st1 (attempt + 1) budget

def runWithRetry (outcomes : Nat → Option JobResult) (maxRetries : Nat)
    (st : SchedState) : Option JobResult × SchedState :=
  runWithRetryGo outcomes st 1 (maxRetries + 1)

/-- The dispatch loop of run (lines 138-153), sequentialised: job slots
`0, 1, ..., count-1` are each driven through `_run_with_retry`, and the
non-None results collected.  `jobOutcomes slot attempt` is the outcome of
the given attempt of the given slot.  Batch boundaries only group the same
sequence of slots, so they do not appear in the state evolution. -/
def schedulerRunFrom (jobOutcomes : Nat → Nat → Option JobResult) (maxRetries : Nat)
    (st : SchedState) : Nat → Nat → List JobResult × SchedState
  | _, 0 => ([], st)
  | slot, n + 1 =>
    match runWithRetry (jobOutcomes slot) maxRetries st with
    | (some r, st1) =>
      let rest := schedulerRunFrom jobOutcomes maxRetries st1 (slot + 1) n
      (r :: rest.1, rest.2)
    | (none, st1) => schedulerRunFrom jobOutcomes maxRetries st1 (slot + 1) n

/-- GenerationScheduler.run restricted to its job-processing effect:
process `count` job slots and return the collected results with the final
state.  Total: a slot that exhausts all attempts contributes nothing and
raises nothing. -/
def schedulerRun (jobOutcomes : Nat → Nat → Option JobResult) (maxRetries : Nat)
    (st : SchedState) (count : Nat) : List JobResult × SchedState :=
  schedulerRunFrom jobOutcomes maxRetries st 0 count

/-! ## FileLock  (src/runner/locks.py)

Time is modelled in milliseconds; each failed `flock` poll is followed by a
500 ms sleep, so the elapsed time when the poll counter is `k` is
`500 * k` ms.  `avail k` tells whether the non-blocking flock at poll `k`
succeeds. -/

inductive LockError where
  | timeout
  deriving DecidableEq

def pollIntervalMs : Nat := 500

/-- FileLock default construction argument `timeout: float = 60.0`. -/
def fileLockDefaultTimeoutMs : Nat := 60000

/-- The `__enter__` polling loop from poll number `k`: try flock; on
`BlockingIOError` raise `TimeoutError` when the elapsed time exceeds the
timeout, else sleep 500 ms and retry.  `budget` is the number of further
polls the timeout still allows: the elapsed-time check
`500 * k > timeoutMs` holds exactly when `budget` has reached 0
(`budget = timeoutMs / 500 + 1 - k`, and `timeoutMs / 500 < k ↔
timeoutMs < 500 * k` on Nat), so the loop is structural in `budget`. -/
def acquireGo (avail : Nat → Bool) (k : Nat) : Nat → Except LockError Nat
  | 0 => if avail k then Except.ok k else Except.error LockError.timeout
  | budget + 1 => if avail k then Except.ok k else acquireGo avail (k + 1) budget

def fileLockEnter (avail : Nat → Bool) (timeoutMs : Nat) : Except LockError Nat :=
  acquireGo avail 0 (timeoutMs / pollIntervalMs + 1)

/-- `with FileLock(path): body` — the scoped acquisition of `_run_single`.
Returns the body's outcome (or the lock error) together with whether the
lock is still held afterwards.  `__exit__` runs on both the normal and the
exceptional exit of the body (flock LOCK_UN + close); on acquisition
timeout no handle was ever held. -/
def withFileLock (avail : Nat → Bool) (timeoutMs : Nat) (body : Except E A) :
    Except (LockError ⊕ E) A × Bool :=
  match fileLockEnter avail timeoutMs with
  | Except.error e => (Except.error (Sum.inl e), false)
  | Except.ok _ =>
    match body with
    | Except.ok a => (Except.ok a, false)
    | Except.error e => (Except.error (Sum.inr e), false)

/-- scheduler.run builds the lock as `FileLock(lock_path)` (line 70 via
line 139), passing only the path, so `_run_single` waits with the
constructor's default timeout. -/
def runSingleLockTimeoutMs : Nat := fileLockDefaultTimeoutMs

/-! ## Worker/lock protocol  (src/runner/scheduler.py line 67-76 with
src/runner/locks.py)

Within one batch, `effective` worker threads each execute
`with FileLock(lock_path): result = job.run()`.  The job body therefore
runs only between a successful flock acquisition and the matching release.
The protocol is modelled as a transition system over `n` workers: a worker
is `waiting` (inside the `__enter__` poll loop), `running` (inside
`job.run()` while owning the flock), or `finished` (released the lock, or
gave up after `TimeoutError`).  flock grants the lock to a waiting worker
only when no one owns it. -/

inductive WPhase where
  | waiting
  | running
  | finished
  deriving DecidableEq

structure LockSys (n : Nat) where
  owner : Option (Fin n)
  phase : Fin n → WPhase

def lockSysInit (n : Nat) : LockSys n :=
  ⟨none, fun _ => WPhase.waiting⟩

inductive LockStep (n : Nat) : LockSys n → LockSys n → Prop where
  | acquire (i : Fin n) (s : LockSys n) :
      s.owner = none → s.phase i = WPhase.waiting →
      LockStep n s ⟨some i, Function.update s.phase i WPhase.running⟩
  | release (i : Fin n) (s : LockSys n) :
      s.owner = some i → s.phase i = WPhase.running →
      LockStep n s ⟨none, Function.update s.phase i WPhase.finished⟩
  | lockTimeout (i : Fin n) (s : LockSys n) :
      s.phase i = WPhase.waiting →
      LockStep n s ⟨s.owner, Function.update s.phase i WPhase.finished⟩

inductive LockReachable (n : Nat) : LockSys n → Prop where
  | init : LockReachable n (lockSysInit n)
  | step {s s' : LockSys n} : LockReachable n s → LockStep n s s' → LockReachable n s'

/-- The ledger-replay relation that actually holds between the in-memory
dedup set and the index file: replaying every line yields the in-memory
set, plus the empty-string hash whenever some record with an empty hash is
in the file (an appended empty hash reaches the file but is never added to
`completed_hashes`). -/
def ledgerReplayInv (st : SchedState) : Prop :=
  loadExistingHashes st.ledger =
    st.completed ∪ (if LedgerLine.record (some "") ∈ st.ledger then {""} else ∅)

/-! # Theorems -/

theorem pyMaxRat_eq_right {a b : Rat} (h : a ≤ b) : pyMaxRat a b = b := by
  unfold pyMaxRat
  split
  · rfl
  · next hblt =>
    have hnlt : ¬ a < b := fun hlt => hblt hlt
    exact le_antisymm h (not_lt.mp hnlt)

/-! ## C1: the concurrency decision refines the spec algorithm -/

/-- C1: for every snapshot (totalMemoryMB, freeMemoryMB, cpuCores ≥ 1) and
configuration (requestedConcurrency ≥ 1, minFreeVramMB, hardSerial), the
effective concurrency and the logged-branch reason computed by
GenerationScheduler.run equal the spec's decision algorithm: hardSerial
with (no accelerator or low headroom) forces serial with the corresponding
reason; otherwise min(requested, cpuCores) with CAPPED_BY_CPU exactly when
cpuCores < requested. -/
theorem c1_concurrency_decision_refines_spec (hardSerial : Bool)
    (minFreeVramMb requestedConcurrency freeMemoryMb totalMemoryMb cpuCores : Nat)
    (hreq : 1 ≤ requestedConcurrency) (hcpu : 1 ≤ cpuCores) :
    schedulerDecide hardSerial minFreeVramMb requestedConcurrency freeMemoryMb totalMemoryMb cpuCores
      = specDecide hardSerial minFreeVramMb requestedConcurrency freeMemoryMb totalMemoryMb cpuCores := by
  have hminIff : min requestedConcurrency cpuCores < requestedConcurrency ↔
      cpuCores < requestedConcurrency := by omega
  simp only [schedulerDecide, specDecide, Nat.max_eq_right hreq, Nat.max_eq_right hcpu]
  by_cases hs : hardSerial = true
  · by_cases ht : totalMemoryMb = 0
    · subst ht; simp [hs]
    · by_cases hf : freeMemoryMb < minFreeVramMb * requestedConcurrency
      · simp [hs, ht, hf, Nat.pos_of_ne_zero ht, Nat.le_zero]
      · simp [hs, ht, hf, Nat.le_zero, hminIff]
  · simp [hs, hminIff]

/-- C1 witness: the spec's own worked example
(total 24000, free 20000, minFreeVram 3000, requested 4, cpu 2,
hardSerial on) — both sides compute (2, CAPPED_BY_CPU). -/
theorem c1_concurrency_decision_refines_spec_witness :
    (1 : Nat) ≤ 4 ∧ (1 : Nat) ≤ 2 ∧
    schedulerDecide true 3000 4 20000 24000 2 = specDecide true 3000 4 20000 24000 2 ∧
    schedulerDecide true 3000 4 20000 24000 2 = (2, Reason.cappedByCpu) :=
  ⟨by norm_num, by norm_num,
   c1_concurrency_decision_refines_spec true 3000 4 20000 24000 2 (by norm_num) (by norm_num),
   by decide⟩

/-! ## C7: malformed ledger lines are skipped, the rest load -/

/-- C7: a ledger file with one corrupt (non-JSON) line among 10 valid
records loads exactly those 10 hashes into the dedup set; the load is a
total function, so no exception is raised. -/
theorem c7_corrupt_line_skipped_on_load :
    loadExistingHashes
      [LedgerLine.record (some "h01"), LedgerLine.record (some "h02"),
       LedgerLine.record (some "h03"), LedgerLine.record (some "h04"),
       LedgerLine.record (some "h05"), LedgerLine.corrupt "not json",
       LedgerLine.record (some "h06"), LedgerLine.record (some "h07"),
       LedgerLine.record (some "h08"), LedgerLine.record (some "h09"),
       LedgerLine.record (some "h10")]
      = {"h01", "h02", "h03", "h04", "h05", "h06", "h07", "h08", "h09", "h10"} ∧
    (loadExistingHashes
      [LedgerLine.record (some "h01"), LedgerLine.record (some "h02"),
       LedgerLine.record (some "h03"), LedgerLine.record (some "h04"),
       LedgerLine.record (some "h05"), LedgerLine.corrupt "not json",
       LedgerLine.record (some "h06"), LedgerLine.record (some "h07"),
       LedgerLine.record (some "h08"), LedgerLine.record (some "h09"),
       LedgerLine.record (some "h10")]).card = 10 := by
  decide

/-! ## with_retry lemmas -/

theorem withRetryGo_lastAttempt_ge (op : Nat → Except E A) (backoff : Rat) :
    ∀ remaining attempt delay,
      attempt ≤ (withRetryGo op backoff attempt delay remaining).lastAttempt := by
  intro remaining
  induction remaining with
  | zero =>
    intro attempt delay
    cases hop : op attempt <;> simp [withRetryGo, hop]
  | succ r ih =>
    intro attempt delay
    cases hop : op attempt with
    | ok a => simp [withRetryGo, hop]
    | error e =>
      simp only [withRetryGo, hop]
      exact le_trans (Nat.le_succ attempt) (ih (attempt + 1) (delay * backoff))

theorem withRetryGo_lastAttempt_le (op : Nat → Except E A) (backoff : Rat) :
    ∀ remaining attempt delay,
      (withRetryGo op backoff attempt delay remaining).lastAttempt ≤ attempt + remaining := by
  intro remaining
  induction remaining with
  | zero =>
    intro attempt delay
    cases hop : op attempt <;> simp [withRetryGo, hop]
  | succ r ih =>
    intro attempt delay
    cases hop : op attempt with
    | ok a => simp [withRetryGo, hop]
    | error e =>
      simp only [withRetryGo, hop]
      calc (withRetryGo op backoff (attempt + 1) (delay * backoff) r).lastAttempt
          ≤ attempt + 1 + r := ih (attempt + 1) (delay * backoff)
        _ = attempt + (r + 1) := by omega

theorem withRetryGo_first_success (op : Nat → Except E A) (backoff : Rat) :
    ∀ remaining attempt delay (a : A),
      (withRetryGo op backoff attempt delay remaining).result = Except.ok a →
      op (withRetryGo op backoff attempt delay remaining).lastAttempt = Except.ok a ∧
      ∀ j, attempt ≤ j → j < (withRetryGo op backoff attempt delay remaining).lastAttempt →
        ∃ e, op j = Except.error e := by
  intro remaining
  induction remaining with
  | zero =>
    intro attempt delay a hres
    cases hop : op attempt with
    | ok b =>
      simp [withRetryGo, hop] at hres
      refine ⟨?_, ?_⟩
      · simp [withRetryGo, hop, hres]
      · intro j hj1 hj2
        simp [withRetryGo, hop] at hj2
        omega
    | error e =>
      simp [withRetryGo, hop] at hres
  | succ r ih =>
    intro attempt delay a hres
    cases hop : op attempt with
    | ok b =>
      simp [withRetryGo, hop] at hres
      refine ⟨?_, ?_⟩
      · simp [withRetryGo, hop, hres]
      · intro j hj1 hj2
        simp [withRetryGo, hop] at hj2
        omega
    | error e =>
      simp only [withRetryGo, hop] at hres ⊢
      obtain ⟨h1, h2⟩ := ih (attempt + 1) (delay * backoff) a hres
      refine ⟨h1, fun j hj1 hj2 => ?_⟩
      rcases hj1.eq_or_lt with heq | hlt
      · exact ⟨e, heq ▸ hop⟩
      · exact h2 j hlt hj2

theorem withRetryGo_delays (op : Nat → Except E A) (backoff : Rat) :
    ∀ remaining attempt delay,
      (withRetryGo op backoff attempt delay remaining).delays =
        (List.range ((withRetryGo op backoff attempt delay remaining).lastAttempt - attempt)).map
          (fun i => delay * backoff ^ i) := by
  intro remaining
  induction remaining with
  | zero =>
    intro attempt delay
    cases hop : op attempt <;> simp [withRetryGo, hop]
  | succ r ih =>
    intro attempt delay
    cases hop : op attempt with
    | ok a => simp [withRetryGo, hop]
    | error e =>
      have hge := withRetryGo_lastAttempt_ge op backoff r (attempt + 1) (delay * backoff)
      simp only [withRetryGo, hop]
      rw [ih (attempt + 1) (delay * backoff)]
      set m := (withRetryGo op backoff (attempt + 1) (delay * backoff) r).lastAttempt with hm
      have hsub : m - attempt = (m - (attempt + 1)) + 1 := by omega
      rw [hsub, List.range_succ_eq_map, List.map_cons, List.map_map]
      refine congrArg₂ List.cons (by simp) ?_
      refine List.map_congr_left (fun i _ => ?_)
      simp [Function.comp, pow_succ]
      ring

/-! ## C2: retry count, first success and exponential back-off delays -/

/-- C2: with jitterMs = 0, maxAttempts ≥ 1 and backoffFactor ≥ 1, with_retry
makes at most maxAttempts attempts, a returned success is the first
attempt that succeeded (all attempts before it failed), and the delay
slept before attempt k+1 is exactly backoffFactor^(k-1) time units: the
delays list is 1, backoff, backoff², ... with one entry per failed
non-final attempt. -/
theorem c2_with_retry_attempts_and_delays (op : Nat → Except E A)
    (maxAttempts : Nat) (backoffFactor : Rat)
    (hA : 1 ≤ maxAttempts) (hB : 1 ≤ backoffFactor) :
    (with_retry op maxAttempts backoffFactor).lastAttempt ≤ maxAttempts ∧
    (∀ a, (with_retry op maxAttempts backoffFactor).result = Except.ok a →
      op (with_retry op maxAttempts backoffFactor).lastAttempt = Except.ok a ∧
      ∀ j, 1 ≤ j → j < (with_retry op maxAttempts backoffFactor).lastAttempt →
        ∃ e, op j = Except.error e) ∧
    (with_retry op maxAttempts backoffFactor).delays =
      (List.range ((with_retry op maxAttempts backoffFactor).lastAttempt - 1)).map
        (fun i => backoffFactor ^ i) := by
  have hmaxA : max 1 maxAttempts = maxAttempts := Nat.max_eq_right hA
  have hmaxB : pyMaxRat 1 backoffFactor = backoffFactor := pyMaxRat_eq_right hB
  refine ⟨?_, ?_, ?_⟩
  · have := withRetryGo_lastAttempt_le op (pyMaxRat 1 backoffFactor) (max 1 maxAttempts - 1) 1 1
    simp only [with_retry]
    omega
  · intro a ha
    exact withRetryGo_first_success op (pyMaxRat 1 backoffFactor) (max 1 maxAttempts - 1) 1 1 a ha
  · have := withRetryGo_delays op (pyMaxRat 1 backoffFactor) (max 1 maxAttempts - 1) 1 1
    simp only [with_retry, hmaxB] at this ⊢
    simpa using this

/-- C2 witness: maxAttempts 3, backoffFactor 2, an operation failing on
attempts 1 and 2 and succeeding on attempt 3: exactly 3 attempts, delays
[1, 2] before attempts 2 and 3, and the success is returned. -/
theorem c2_with_retry_attempts_and_delays_witness :
    (1 : Nat) ≤ 3 ∧ (1 : Rat) ≤ 2 ∧
    (with_retry (fun k => if 3 ≤ k then Except.ok 42 else Except.error "boom") 3 (2 : Rat)).lastAttempt ≤ 3 ∧
    (with_retry (fun k => if 3 ≤ k then Except.ok 42 else Except.error "boom") 3 (2 : Rat)).lastAttempt = 3 ∧
    (with_retry (fun k => if 3 ≤ k then Except.ok 42 else Except.error "boom") 3 (2 : Rat)).delays = [1, 2] ∧
    (with_retry (fun k => if 3 ≤ k then Except.ok 42 else Except.error "boom") 3 (2 : Rat)).result = Except.ok 42 := by
  have h := c2_with_retry_attempts_and_delays
    (fun k => if 3 ≤ k then Except.ok 42 else Except.error "boom") 3 (2 : Rat)
    (by norm_num) (by norm_num)
  have hlast : (with_retry (fun k => if 3 ≤ k then Except.ok 42 else Except.error "boom")
      3 (2 : Rat)).lastAttempt = 3 := by decide
  refine ⟨by norm_num, by norm_num, h.1, hlast, ?_, by rfl⟩
  have h3 := h.2.2
  rw [hlast] at h3
  simpa [List.range_succ, pow_succ] using h3

/-! ## C3: terminal error categories do NOT abort the retry loop -/

/-- C3 counterexample: an operation whose first attempt fails with an error
classify_sd_error marks "bad_request" (a terminal / CLIENT_ERROR category)
is still retried: with maxAttempts = 2 the wrapper makes a second attempt
(lastAttempt = 2, and the second attempt's success is returned), while the
claim requires it to abort after attempt 1. -/
theorem c3_terminal_category_counterexample :
    (classify_sd_error (SdError.httpStatusExc 400 "bad request")).1 = "bad_request" ∧
    (with_retry
      (fun k => if k = 1 then Except.error (SdError.httpStatusExc 400 "bad request") else Except.ok 7)
      2 (1 : Rat)).lastAttempt = 2 ∧
    (with_retry
      (fun k => if k = 1 then Except.error (SdError.httpStatusExc 400 "bad request") else Except.ok 7)
      2 (1 : Rat)).result = Except.ok 7 ∧
    (2 : Nat) ≠ 1 := by
  refine ⟨by decide, by decide, by rfl, by decide⟩

/-- C3 amended: with_retry never consults the error category to stop early
— classify_sd_error feeds only the logs.  For every error e (in
particular one classified bad_request / auth_error) and maxAttempts ≥ 2,
an operation failing on attempt 1 with e is given a second attempt. -/
theorem c3_amended_all_errors_retried (op : Nat → Except SdError A) (e : SdError)
    (maxAttempts : Nat) (backoffFactor : Rat)
    (h1 : op 1 = Except.error e) (h2 : 2 ≤ maxAttempts) :
    2 ≤ (with_retry op maxAttempts backoffFactor).lastAttempt := by
  obtain ⟨r, hr⟩ : ∃ r, max 1 maxAttempts - 1 = r + 1 := ⟨maxAttempts - 2, by omega⟩
  simp only [with_retry, hr, withRetryGo, h1]
  exact withRetryGo_lastAttempt_ge op (pyMaxRat 1 backoffFactor) r 2 (1 * pyMaxRat 1 backoffFactor)

/-- C3 amended witness: the bad_request error of the counterexample, with
maxAttempts = 2: the wrapper reaches attempt 2. -/
theorem c3_amended_all_errors_retried_witness :
    ((fun k => if k = 1 then Except.error (SdError.httpStatusExc 400 "bad request") else Except.ok 7) 1
       = Except.error (SdError.httpStatusExc 400 "bad request")) ∧
    (2 : Nat) ≤ 2 ∧
    2 ≤ (with_retry
      (fun k => if k = 1 then Except.error (SdError.httpStatusExc 400 "bad request") else Except.ok 7)
      2 (1 : Rat)).lastAttempt :=
  ⟨by rfl, by norm_num,
   c3_amended_all_errors_retried
     (fun k => if k = 1 then Except.error (SdError.httpStatusExc 400 "bad request") else Except.ok 7)
     (SdError.httpStatusExc 400 "bad request") 2 1 (by rfl) (by norm_num)⟩

/-! ## Scheduler run lemmas -/

theorem runSingle_some_fst (st : SchedState) (r : JobResult) :
    (runSingle st (some r)).1 = some r := by
  simp only [runSingle]
  split <;> rfl

theorem runWithRetryGo_none_iff (outcomes : Nat → Option JobResult) :
    ∀ budget attempt st,
      (runWithRetryGo outcomes st attempt budget).1 = none ↔
        ∀ j, attempt ≤ j → j < attempt + budget → outcomes j = none := by
  intro budget
  induction budget with
  | zero =>
    intro attempt st
    simp only [runWithRetryGo]
    constructor
    · intro _ j h1 h2
      omega
    · intro _
      trivial
  | succ b ih =>
    intro attempt st
    cases ho : outcomes attempt with
    | some r =>
      rcases hrs : runSingle st (some r) with ⟨o, st1⟩
      have ho1 : o = some r := by
        have := runSingle_some_fst st r
        rw [hrs] at this
        exact this
      subst ho1
      simp only [runWithRetryGo, ho, hrs]
      constructor
      · intro hnone
        cases hnone
      · intro hall
        have := hall attempt (le_refl _) (by omega)
        rw [ho] at this
        cases this
    | none =>
      have hrs : runSingle st none = (none, st) := rfl
      simp only [runWithRetryGo, ho, hrs]
      rw [ih (attempt + 1) st]
      constructor
      · intro hrec j h1 h2
        rcases h1.eq_or_lt with heq | hlt
        · exact heq ▸ ho
        · exact hrec j hlt (by omega)
      · intro hall j h1 h2
        exact hall j (by omega) (by omega)

theorem schedulerRunFrom_length_le (jo : Nat → Nat → Option JobResult) (mr : Nat) :
    ∀ n slot st, (schedulerRunFrom jo mr st slot n).1.length ≤ n := by
  intro n
  induction n with
  | zero =>
    intro slot st
    simp [schedulerRunFrom]
  | succ m ih =>
    intro slot st
    rcases hrw : runWithRetry (jo slot) mr st with ⟨o, st1⟩
    cases o with
    | none =>
      simp only [schedulerRunFrom, hrw]
      exact le_trans (ih (slot + 1) st1) (Nat.le_succ m)
    | some r =>
      simp only [schedulerRunFrom, hrw, List.length_cons]
      exact Nat.succ_le_succ (ih (slot + 1) st1)

theorem schedulerRunFrom_length_eq (jo : Nat → Nat → Option JobResult) (mr : Nat) :
    ∀ n slot st,
      (∀ s, slot ≤ s → s < slot + n → ∃ k, 1 ≤ k ∧ k ≤ mr + 1 ∧ jo s k ≠ none) →
      (schedulerRunFrom jo mr st slot n).1.length = n := by
  intro n
  induction n with
  | zero =>
    intro slot st _
    simp [schedulerRunFrom]
  | succ m ih =>
    intro slot st hall
    rcases hrw : runWithRetry (jo slot) mr st with ⟨o, st1⟩
    cases o with
    | none =>
      exfalso
      obtain ⟨k, hk1, hk2, hk3⟩ := hall slot (le_refl _) (by omega)
      have hnone : (runWithRetry (jo slot) mr st).1 = none := by rw [hrw]
      rw [runWithRetry, runWithRetryGo_none_iff (jo slot) (mr + 1) 1 st] at hnone
      exact hk3 (hnone k hk1 (by omega))
    | some r =>
      simp only [schedulerRunFrom, hrw, List.length_cons]
      rw [ih (slot + 1) st1 (fun s hs1 hs2 => hall s (by omega) (by omega))]

/-! ## C4: result count bounded by request, equal when nothing exhausts -/

/-- C4: for every N ≥ 0, GenerationScheduler.run(N) returns at most N
results, and exactly N when every job slot has a succeeding attempt within
its max_retries + 1 budget.  The run is a total function: slots whose
attempts all fail contribute nothing (and raise nothing), they are simply
absent from the result list. -/
theorem c4_run_result_count (jo : Nat → Nat → Option JobResult)
    (maxRetries count : Nat) (st : SchedState) :
    (schedulerRun jo maxRetries st count).1.length ≤ count ∧
    ((∀ slot, slot < count → ∃ k, 1 ≤ k ∧ k ≤ maxRetries + 1 ∧ jo slot k ≠ none) →
      (schedulerRun jo maxRetries st count).1.length = count) := by
  constructor
  · exact schedulerRunFrom_length_le jo maxRetries count 0 st
  · intro hall
    exact schedulerRunFrom_length_eq jo maxRetries count 0 st
      (fun s hs1 hs2 => hall s (by omega))

/-- C4 witness: two job slots that each succeed on attempt 1 with a
max_retries = 0 budget give exactly 2 results. -/
theorem c4_run_result_count_witness :
    (∀ slot, slot < 2 → ∃ k, 1 ≤ k ∧ k ≤ 0 + 1 ∧
      (fun (_ _ : Nat) => some (⟨"h", 0⟩ : JobResult)) slot k ≠ none) ∧
    (schedulerRun (fun _ _ => some ⟨"h", 0⟩) 0 ⟨∅, []⟩ 2).1.length = 2 := by
  have hall : ∀ slot, slot < 2 → ∃ k, 1 ≤ k ∧ k ≤ 0 + 1 ∧
      (fun (_ _ : Nat) => some (⟨"h", 0⟩ : JobResult)) slot k ≠ none := by
    intro slot _
    exact ⟨1, le_refl _, le_refl _, by simp⟩
  exact ⟨hall, (c4_run_result_count (fun _ _ => some ⟨"h", 0⟩) 0 2 ⟨∅, []⟩).2 hall⟩

/-! ## C5 helper computations -/

theorem dupHashRunAux (st0 : SchedState) (jo : Nat → Nat → Option JobResult) (mr : Nat)
    (r0 r1 : JobResult) (hh : r0.file_hash ≠ "") (hsame : r1.file_hash = r0.file_hash)
    (hfresh : r0.file_hash ∉ st0.completed)
    (h0 : jo 0 1 = some r0) (h1 : jo 1 1 = some r1) :
    (schedulerRun jo mr st0 2).1 = [r0, r1] ∧
    (schedulerRun jo mr st0 2).2.ledger =
      st0.ledger ++ [LedgerLine.record (some r0.file_hash)] := by
  have hc0 : ¬(r0.file_hash ≠ "" ∧ r0.file_hash ∈ st0.completed) := fun hc => hfresh hc.2
  have hst1 : runSingle st0 (some r0) = (some r0,
      ⟨insert r0.file_hash st0.completed,
       st0.ledger ++ [LedgerLine.record (some r0.file_hash)]⟩) := by
    simp [runSingle, appendIndex, hc0, hh, hfresh]
  have hmem1 : r1.file_hash ≠ "" ∧
      r1.file_hash ∈ (insert r0.file_hash st0.completed : Finset String) :=
    ⟨by rw [hsame]; exact hh, by rw [hsame]; exact Finset.mem_insert_self _ _⟩
  have hst2 : runSingle
      ⟨insert r0.file_hash st0.completed,
       st0.ledger ++ [LedgerLine.record (some r0.file_hash)]⟩ (some r1) =
      (some r1,
       ⟨insert r0.file_hash st0.completed,
        st0.ledger ++ [LedgerLine.record (some r0.file_hash)]⟩) := by
    simp only [runSingle]
    rw [if_pos hmem1]
  constructor <;>
    simp only [schedulerRun, schedulerRunFrom, runWithRetry, runWithRetryGo,
      h0, h1, hst1, hst2]

theorem emptyHashRunAux (st0 : SchedState) (jo : Nat → Nat → Option JobResult) (mr : Nat)
    (r0 r1 : JobResult) (hh0 : r0.file_hash = "") (hh1 : r1.file_hash = "")
    (h0 : jo 0 1 = some r0) (h1 : jo 1 1 = some r1) :
    (schedulerRun jo mr st0 2).1 = [r0, r1] ∧
    (schedulerRun jo mr st0 2).2.ledger =
      st0.ledger ++ [LedgerLine.record (some ""), LedgerLine.record (some "")] := by
  have hc0 : ¬(r0.file_hash ≠ "" ∧ r0.file_hash ∈ st0.completed) := fun hc => hc.1 hh0
  have hst1 : runSingle st0 (some r0) = (some r0,
      ⟨st0.completed, st0.ledger ++ [LedgerLine.record (some "")]⟩) := by
    simp [runSingle, appendIndex, hc0, hh0]
  have hc1 : ¬(r1.file_hash ≠ "" ∧
      r1.file_hash ∈ (⟨st0.completed, st0.ledger ++ [LedgerLine.record (some "")]⟩ :
        SchedState).completed) := fun hc => hc.1 hh1
  have hst2 : runSingle ⟨st0.completed, st0.ledger ++ [LedgerLine.record (some "")]⟩
      (some r1) = (some r1,
      ⟨st0.completed,
       st0.ledger ++ [LedgerLine.record (some ""), LedgerLine.record (some "")]⟩) := by
    simp [runSingle, appendIndex, hc1, hh1]
  constructor <;>
    simp only [schedulerRun, schedulerRunFrom, runWithRetry, runWithRetryGo,
      h0, h1, hst1, hst2]

/-! ## C5: identical hashes append once, both results returned; empty
hashes never dedup -/

/-- C5: in one run of two successful jobs whose artifacts share one
non-empty content hash not yet indexed, exactly one ledger record for that
hash is appended and both JobResults are still returned; and two
successful jobs with empty content hashes each append their own record
(empty hashes are never treated as duplicates of each other), again with
both results returned. -/
theorem c5_dedup_one_append_both_returned :
    (∀ (st0 : SchedState) (jo : Nat → Nat → Option JobResult) (mr : Nat)
       (r0 r1 : JobResult), r0.file_hash ≠ "" → r1.file_hash = r0.file_hash →
       r0.file_hash ∉ st0.completed → jo 0 1 = some r0 → jo 1 1 = some r1 →
       (schedulerRun jo mr st0 2).1 = [r0, r1] ∧
       (schedulerRun jo mr st0 2).2.ledger =
         st0.ledger ++ [LedgerLine.record (some r0.file_hash)]) ∧
    (∀ (st0 : SchedState) (jo : Nat → Nat → Option JobResult) (mr : Nat)
       (r0 r1 : JobResult), r0.file_hash = "" → r1.file_hash = "" →
       jo 0 1 = some r0 → jo 1 1 = some r1 →
       (schedulerRun jo mr st0 2).1 = [r0, r1] ∧
       (schedulerRun jo mr st0 2).2.ledger =
         st0.ledger ++ [LedgerLine.record (some ""), LedgerLine.record (some "")]) :=
  ⟨fun st0 jo mr r0 r1 hh hsame hfresh h0 h1 =>
     dupHashRunAux st0 jo mr r0 r1 hh hsame hfresh h0 h1,
   fun st0 jo mr r0 r1 hh0 hh1 h0 h1 =>
     emptyHashRunAux st0 jo mr r0 r1 hh0 hh1 h0 h1⟩

/-- C5 witness: two jobs producing hash "ab" from an empty index append one
record and return two results; two jobs with empty hashes append two
records and return two results. -/
theorem c5_dedup_one_append_both_returned_witness :
    (("ab" : String) ≠ "") ∧
    ((schedulerRun (fun slot _ => if slot = 0 then some ⟨"ab", 0⟩ else some ⟨"ab", 1⟩)
        0 ⟨∅, []⟩ 2).1 = [⟨"ab", 0⟩, ⟨"ab", 1⟩] ∧
     (schedulerRun (fun slot _ => if slot = 0 then some ⟨"ab", 0⟩ else some ⟨"ab", 1⟩)
        0 ⟨∅, []⟩ 2).2.ledger = [] ++ [LedgerLine.record (some "ab")]) ∧
    ((schedulerRun (fun slot _ => if slot = 0 then some ⟨"", 0⟩ else some ⟨"", 1⟩)
        0 ⟨∅, []⟩ 2).1 = [⟨"", 0⟩, ⟨"", 1⟩] ∧
     (schedulerRun (fun slot _ => if slot = 0 then some ⟨"", 0⟩ else some ⟨"", 1⟩)
        0 ⟨∅, []⟩ 2).2.ledger =
       [] ++ [LedgerLine.record (some ""), LedgerLine.record (some "")]) := by
  refine ⟨by decide, ?_, ?_⟩
  · exact c5_dedup_one_append_both_returned.1 ⟨∅, []⟩
      (fun slot _ => if slot = 0 then some ⟨"ab", 0⟩ else some ⟨"ab", 1⟩) 0
      ⟨"ab", 0⟩ ⟨"ab", 1⟩ (by decide) rfl (by simp) rfl rfl
  · exact c5_dedup_one_append_both_returned.2 ⟨∅, []⟩
      (fun slot _ => if slot = 0 then some ⟨"", 0⟩ else some ⟨"", 1⟩) 0
      ⟨"", 0⟩ ⟨"", 1⟩ rfl rfl rfl rfl

/-! ## Ledger replay lemmas -/

theorem mem_foldl_loadStep (a : String) :
    ∀ (lines : List LedgerLine) (s : Finset String),
      a ∈ lines.foldl loadStep s ↔ a ∈ s ∨ LedgerLine.record (some a) ∈ lines := by
  intro lines
  induction lines with
  | nil =>
    intro s
    simp
  | cons line rest ih =>
    intro s
    rw [List.foldl_cons, ih]
    cases line with
    | record oh =>
      cases oh with
      | none => simp [loadStep]
      | some h =>
        simp only [loadStep, Finset.mem_insert, List.mem_cons, LedgerLine.record.injEq,
          Option.some.injEq]
        tauto
    | corrupt raw => simp [loadStep]

theorem record_mem_loadExistingHashes (a : String) (lines : List LedgerLine) :
    a ∈ loadExistingHashes lines ↔ LedgerLine.record (some a) ∈ lines := by
  rw [loadExistingHashes, mem_foldl_loadStep]
  simp

theorem ledgerReplayInv_iff (st : SchedState) :
    ledgerReplayInv st ↔
      ∀ a, LedgerLine.record (some a) ∈ st.ledger ↔
        (a ∈ st.completed ∨ (a = "" ∧ LedgerLine.record (some "") ∈ st.ledger)) := by
  unfold ledgerReplayInv
  rw [Finset.ext_iff]
  refine forall_congr' (fun a => ?_)
  rw [record_mem_loadExistingHashes]
  by_cases hp : LedgerLine.record (some "") ∈ st.ledger <;>
    simp [hp, Finset.mem_union]

theorem ledgerReplayInv_init (lines : List LedgerLine) :
    ledgerReplayInv (initSchedState lines) := by
  rw [ledgerReplayInv_iff]
  intro a
  simp only [initSchedState, record_mem_loadExistingHashes]
  constructor
  · exact fun h => Or.inl h
  · rintro (h | ⟨rfl, h⟩) <;> exact h

theorem ledgerReplayInv_runSingle (st : SchedState) (o : Option JobResult)
    (h : ledgerReplayInv st) : ledgerReplayInv (runSingle st o).2 := by
  cases o with
  | none => exact h
  | some r =>
    by_cases hc : r.file_hash ≠ "" ∧ r.file_hash ∈ st.completed
    · simpa [runSingle, hc] using h
    · rw [ledgerReplayInv_iff] at h
      simp only [runSingle, if_neg hc, appendIndex]
      rw [ledgerReplayInv_iff]
      intro a
      by_cases hr : r.file_hash = ""
      · simp only [hr, ne_eq, not_true_eq_false, if_false, List.mem_append, List.mem_cons,
          List.not_mem_nil, or_false, LedgerLine.record.injEq, Option.some.injEq]
        have ha := h a
        tauto
      · have hr' : ¬("" = r.file_hash) := fun e => hr e.symm
        simp only [ne_eq, hr, not_false_eq_true, if_true, List.mem_append, List.mem_cons,
          List.not_mem_nil, or_false, LedgerLine.record.injEq, Option.some.injEq,
          Finset.mem_insert, hr']
        have ha := h a
        tauto

theorem ledgerReplayInv_runWithRetryGo (outcomes : Nat → Option JobResult) :
    ∀ budget attempt st, ledgerReplayInv st →
      ledgerReplayInv (runWithRetryGo outcomes st attempt budget).2 := by
  intro budget
  induction budget with
  | zero =>
    intro attempt st h
    simpa [runWithRetryGo] using h
  | succ b ih =>
    intro attempt st h
    rcases hrs : runSingle st (outcomes attempt) with ⟨o, st1⟩
    have h1 : ledgerReplayInv st1 := by
      have := ledgerReplayInv_runSingle st (outcomes attempt) h
      rw [hrs] at this
      exact this
    cases o with
    | some r => simpa [runWithRetryGo, hrs] using h1
    | none =>
      simp only [runWithRetryGo, hrs]
      exact ih (attempt + 1) st1 h1

theorem ledgerReplayInv_schedulerRunFrom (jo : Nat → Nat → Option JobResult) (mr : Nat) :
    ∀ n slot st, ledgerReplayInv st →
      ledgerReplayInv (schedulerRunFrom jo mr st slot n).2 := by
  intro n
  induction n with
  | zero =>
    intro slot st h
    simpa [schedulerRunFrom] using h
  | succ m ih =>
    intro slot st h
    rcases hrw : runWithRetry (jo slot) mr st with ⟨o, st1⟩
    have h1 : ledgerReplayInv st1 := by
      have := ledgerReplayInv_runWithRetryGo (jo slot) (mr + 1) 1 st h
      rw [← runWithRetry, hrw] at this
      exact this
    cases o with
    | some r =>
      simp only [schedulerRunFrom, hrw]
      exact ih (slot + 1) st1 h1
    | none =>
      simp only [schedulerRunFrom, hrw]
      exact ih (slot + 1) st1 h1

/-! ## C6: exact ledger replay fails on empty hashes; corrected invariant -/

/-- C6 counterexample: starting from an empty ledger, one successful job
whose artifact hash is the empty string appends a record with hash ""
(so replaying the ledger yields a set containing "") while the in-memory
dedup set stays empty — the replayed set is not the in-memory set. -/
theorem c6_exact_replay_counterexample :
    loadExistingHashes ((runSingle (initSchedState []) (some ⟨"", 0⟩)).2.ledger) ≠
      (runSingle (initSchedState []) (some ⟨"", 0⟩)).2.completed := by
  decide

/-- C6 amended: at construction and after every processed job attempt /
job / run prefix, replaying the ledger from empty yields the in-memory
dedup set together with the empty-string hash whenever the ledger holds an
empty-hash record (the in-memory set is never given "" during the run,
but appended empty-hash records contribute "" on replay). -/
theorem c6_amended_replay_invariant :
    (∀ lines, ledgerReplayInv (initSchedState lines)) ∧
    (∀ st o, ledgerReplayInv st → ledgerReplayInv (runSingle st o).2) ∧
    (∀ jo mr st n, ledgerReplayInv st →
      ledgerReplayInv (schedulerRun jo mr st n).2) :=
  ⟨ledgerReplayInv_init,
   ledgerReplayInv_runSingle,
   fun jo mr st n h => ledgerReplayInv_schedulerRunFrom jo mr n 0 st h⟩

/-- C6 amended witness: the invariant holds at an empty-ledger start and
is preserved through the empty-hash job of the counterexample. -/
theorem c6_amended_replay_invariant_witness :
    ledgerReplayInv (initSchedState []) ∧
    ledgerReplayInv (runSingle (initSchedState []) (some ⟨"", 0⟩)).2 :=
  ⟨c6_amended_replay_invariant.1 [],
   c6_amended_replay_invariant.2.1 (initSchedState []) (some ⟨"", 0⟩)
     (c6_amended_replay_invariant.1 [])⟩

/-! ## FileLock lemmas -/

theorem acquireGo_all_false (avail : Nat → Bool) (h : ∀ j, avail j = false) :
    ∀ budget k, acquireGo avail k budget = Except.error LockError.timeout := by
  intro budget
  induction budget with
  | zero =>
    intro k
    simp [acquireGo, h k]
  | succ b ih =>
    intro k
    simp only [acquireGo, h k, Bool.false_eq_true, if_false]
    exact ih (k + 1)

theorem acquireGo_ok (avail : Nat → Bool) :
    ∀ budget k m, acquireGo avail k budget = Except.ok m →
      avail m = true ∧ k ≤ m ∧ m ≤ k + budget ∧
      ∀ j, k ≤ j → j < m → avail j = false := by
  intro budget
  induction budget with
  | zero =>
    intro k m h
    by_cases ha : avail k = true
    · simp only [acquireGo, ha, if_true, Except.ok.injEq] at h
      subst h
      exact ⟨ha, le_refl _, by omega, fun j hj1 hj2 => by omega⟩
    · simp [acquireGo, ha] at h
  | succ b ih =>
    intro k m h
    by_cases ha : avail k = true
    · simp only [acquireGo, ha, if_true, Except.ok.injEq] at h
      subst h
      exact ⟨ha, le_refl _, by omega, fun j hj1 hj2 => by omega⟩
    · simp only [acquireGo, ha, Bool.false_eq_true, if_false] at h
      obtain ⟨h1, h2, h3, h4⟩ := ih (k + 1) m h
      refine ⟨h1, by omega, by omega, fun j hj1 hj2 => ?_⟩
      rcases hj1.eq_or_lt with heq | hlt
      · exact heq ▸ Bool.eq_false_iff.mpr ha
      · exact h4 j hlt hj2

/-! ## C8: lock polling, timeout failure, release on every exit path -/

/-- C8: the FileLock scoped acquisition (a) fails with a TimeoutError and
holds no lock when the flock never becomes available, (b) returns a
handle only for a poll at which flock succeeded, after polling every 500 ms
from the start with every earlier poll unavailable and within the timeout,
and (c) leaves the lock released on every exit path, including when the
guarded body fails. -/
theorem c8_file_lock_poll_timeout_release (avail : Nat → Bool) (timeoutMs : Nat)
    (body : Except E A) :
    ((∀ j, avail j = false) →
      withFileLock avail timeoutMs body =
        (Except.error (Sum.inl LockError.timeout), false)) ∧
    (∀ m, fileLockEnter avail timeoutMs = Except.ok m →
      avail m = true ∧ (∀ j, j < m → avail j = false) ∧
      (∀ j, j < m → pollIntervalMs * j ≤ timeoutMs)) ∧
    (withFileLock avail timeoutMs body).2 = false := by
  refine ⟨?_, ?_, ?_⟩
  · intro hall
    have henter : fileLockEnter avail timeoutMs = Except.error LockError.timeout := by
      rw [fileLockEnter]
      exact acquireGo_all_false avail hall _ 0
    simp [withFileLock, henter]
  · intro m hm
    rw [fileLockEnter] at hm
    obtain ⟨h1, h2, h3, h4⟩ := acquireGo_ok avail (timeoutMs / pollIntervalMs + 1) 0 m hm
    refine ⟨h1, fun j hj => h4 j (by omega) hj, fun j hj => ?_⟩
    simp only [pollIntervalMs] at h3 ⊢
    omega
  · cases henter : fileLockEnter avail timeoutMs with
    | error e => simp [withFileLock, henter]
    | ok k => cases body <;> simp [withFileLock, henter]

/-- C8 witness: a never-available lock with a 1000 ms timeout fails with
the timeout error and ends unheld; an immediately available lock is
granted at poll 0. -/
theorem c8_file_lock_poll_timeout_release_witness :
    (∀ j : Nat, (fun _ : Nat => false) j = false) ∧
    withFileLock (fun _ => false) 1000 (Except.ok (0 : Nat) : Except Unit Nat) =
      (Except.error (Sum.inl LockError.timeout), false) ∧
    (withFileLock (fun _ => false) 1000 (Except.ok (0 : Nat) : Except Unit Nat)).2 = false ∧
    fileLockEnter (fun _ => true) 0 = Except.ok 0 ∧
    (fun _ : Nat => true) 0 = true :=
  ⟨fun _ => rfl,
   (c8_file_lock_poll_timeout_release (fun _ => false) 1000
      (Except.ok (0 : Nat) : Except Unit Nat)).1 (fun _ => rfl),
   (c8_file_lock_poll_timeout_release (fun _ => false) 1000
      (Except.ok (0 : Nat) : Except Unit Nat)).2.2,
   by rfl,
   ((c8_file_lock_poll_timeout_release (fun _ => true) 0
      (Except.ok (0 : Nat) : Except Unit Nat)).2.1 0 (by rfl)).1⟩

/-! ## C9: job bodies are serialized by the lock protocol -/

theorem lockReachable_running_owner {n : Nat} {s : LockSys n}
    (h : LockReachable n s) :
    ∀ i, s.phase i = WPhase.running → s.owner = some i := by
  induction h with
  | init =>
    intro i hi
    simp [lockSysInit] at hi
  | step hreach hstep ih =>
    cases hstep with
    | acquire i s hown hph =>
      intro j hj
      dsimp only at hj ⊢
      by_cases hij : j = i
      · subst hij
        rfl
      · rw [Function.update_noteq hij] at hj
        have := ih j hj
        rw [hown] at this
        cases this
    | release i s hown hph =>
      intro j hj
      dsimp only at hj ⊢
      by_cases hij : j = i
      · subst hij
        rw [Function.update_same] at hj
        cases hj
      · rw [Function.update_noteq hij] at hj
        have := ih j hj
        rw [hown] at this
        exact absurd (Option.some.inj this) (fun e => hij e.symm)
    | lockTimeout i s hph =>
      intro j hj
      dsimp only at hj ⊢
      by_cases hij : j = i
      · subst hij
        rw [Function.update_same] at hj
        cases hj
      · rw [Function.update_noteq hij] at hj
        exact ih j hj

/-- C9: in the worker/lock protocol of `_run_single` (every job body runs
between flock acquisition and release), at most one worker of a scheduler
batch is ever inside its job body in any reachable state — two workers
running at once are equal — so concurrency above 1 only overlaps the
lock-waiting of the extra workers; and the lock `_run_single` waits on is
built with the FileLock default timeout of 60 seconds (scheduler passes
only the lock path). -/
theorem c9_lock_serializes_job_bodies (n : Nat) (s : LockSys n)
    (hs : LockReachable n s) :
    (∀ i j : Fin n, s.phase i = WPhase.running → s.phase j = WPhase.running → i = j) ∧
    runSingleLockTimeoutMs = 60000 := by
  refine ⟨fun i j hi hj => ?_, rfl⟩
  have h1 := lockReachable_running_owner hs i hi
  have h2 := lockReachable_running_owner hs j hj
  rw [h1] at h2
  exact Option.some.inj h2

/-- C9 witness: the state of two workers where worker 0 has acquired the
lock and entered its body is reachable, and mutual exclusion evaluated
there is discharged by the theorem. -/
theorem c9_lock_serializes_job_bodies_witness :
    LockReachable 2 ⟨some 0, Function.update (fun _ => WPhase.waiting) 0 WPhase.running⟩ ∧
    ((∀ i j : Fin 2,
        (⟨some 0, Function.update (fun _ => WPhase.waiting) 0 WPhase.running⟩ : LockSys 2).phase i
          = WPhase.running →
        (⟨some 0, Function.update (fun _ => WPhase.waiting) 0 WPhase.running⟩ : LockSys 2).phase j
          = WPhase.running → i = j) ∧
      runSingleLockTimeoutMs = 60000) := by
  have hreach : LockReachable 2
      ⟨some 0, Function.update (fun _ => WPhase.waiting) 0 WPhase.running⟩ :=
    LockReachable.step LockReachable.init
      (LockStep.acquire 0 (lockSysInit 2) rfl rfl)
  exact ⟨hreach, c9_lock_serializes_job_bodies 2 _ hreach⟩

/-! ## C10: ffmpeg classifier on missing tool and disk-full markers -/

/-- C10 counterexample: a stderr carrying a disk-full marker is classified
"disk_full" — its own category — not the "io_error" category the claim
names (io_error is produced by "input/output error" markers instead). -/
theorem c10_disk_full_category_counterexample :
    (classify_ffmpeg "no space left on device" 1).1 = "disk_full" ∧
    (classify_ffmpeg "no space left on device" 1).1 ≠ "io_error" := by
  exact ⟨by decide, by decide⟩

/-- C10 amended: exit code 127 or a stderr containing "command not found"
classify as no_ffmpeg (TOOL_MISSING); a stderr containing a disk-full
marker — when no earlier branch (127 / command-not-found /
missing-file / permission) matched — classifies as the distinct
"disk_full" category, not "io_error"; "io_error" is what an
"input/output error" stderr classifies as. -/
theorem c10_amended_tool_missing_disk_full (stderr : String) (code : Int) :
    (code = 127 → (classify_ffmpeg stderr code).1 = "no_ffmpeg") ∧
    (pyIn "command not found" (pyLower stderr) = true →
      (classify_ffmpeg stderr code).1 = "no_ffmpeg") ∧
    ((pyIn "no space left" (pyLower stderr) = true ∨
        pyIn "disk full" (pyLower stderr) = true) →
      code ≠ 127 →
      pyIn "command not found" (pyLower stderr) = false →
      pyIn "no such file or directory" (pyLower stderr) = false →
      pyIn "unable to open" (pyLower stderr) = false →
      pyIn "permission denied" (pyLower stderr) = false →
      (classify_ffmpeg stderr code).1 = "disk_full") ∧
    (classify_ffmpeg "input/output error" 1).1 = "io_error" := by
  refine ⟨?_, ?_, ?_, by decide⟩
  · intro h
    subst h
    simp [classify_ffmpeg]
  · intro h
    simp [classify_ffmpeg, h]
  · intro hd hc hcnf h1 h2 h3
    rcases hd with hd | hd <;>
      simp [classify_ffmpeg, beq_iff_eq, hc, hcnf, h1, h2, h3, hd]

/-- C10 amended witness: "no space left on device" with exit code 1 hits
the disk_full branch; exit code 127 hits no_ffmpeg. -/
theorem c10_amended_tool_missing_disk_full_witness :
    (pyIn "no space left" (pyLower "no space left on device") = true ∨
      pyIn "disk full" (pyLower "no space left on device") = true) ∧
    ((1 : Int) ≠ 127) ∧
    (classify_ffmpeg "no space left on device" 1).1 = "disk_full" ∧
    (classify_ffmpeg "" 127).1 = "no_ffmpeg" := by
  refine ⟨Or.inl (by decide), by decide, ?_, ?_⟩
  · exact (c10_amended_tool_missing_disk_full "no space left on device" 1).2.2.1
      (Or.inl (by decide)) (by decide) (by decide) (by decide) (by decide) (by decide)
  · exact (c10_amended_tool_missing_disk_full "" 127).1 rfl

end AutoEdit
